import Mathlib

/-!
# Verification of the photo-getter-node image server

A shallow embedding of `server.js` from the `photo-getter-node` repository.
The server exposes a directory of images through a recursive listing endpoint
and a streaming endpoint with on-the-fly transcoding and a
fallback-to-original-file path.

Paths are modelled as strings processed at the character-list level, following
the POSIX behaviour of Node's `path` module (`normalize`, `join`, `relative`,
`extname`, `basename`).  Filesystem and image-library behaviour is modelled by
explicit oracles.  JavaScript exceptions are modelled with `Except` /
`Option` error values, and JavaScript truthiness (`x || d`) is modelled
explicitly wherever the source relies on it.
-/

namespace PhotoGetter

abbrev Chars := List Char

/-! ## Character-level path primitives (Node `path`, POSIX flavour) -/

/-- Split a character list on `/` separators.  Always returns a non-empty
list of (possibly empty) separator-free segments. -/
def splitSlash : Chars → List Chars
  | [] => [[]]
  | c :: r =>
    let rest := splitSlash r
    if c = '/' then [] :: rest
    else
      match rest with
      | s :: ss => (c :: s) :: ss
      | [] => [[c]]

/-- Join segments with `/` separators (inverse of `splitSlash`). -/
def joinSegs : List Chars → Chars
  | [] => []
  | [s] => s
  | s :: rest => s ++ '/' :: joinSegs rest

/-- Boolean string-prefix test on character lists
(JavaScript `String.prototype.startsWith`). -/
def startsWithChars : Chars → Chars → Bool
  | _, [] => true
  | [], _ :: _ => false
  | h :: hs, p :: ps => h = p && startsWithChars hs ps

/-- Whether a character list contains `".."` as a (contiguous) substring
(JavaScript `String.prototype.includes('..')`). -/
def containsDotDot : Chars → Bool
  | [] => false
  | c :: t => startsWithChars (c :: t) ['.', '.'] || containsDotDot t

/-- Generic substring test (JavaScript `String.prototype.includes`). -/
def containsSubstr (needle : Chars) : Chars → Bool
  | [] => startsWithChars [] needle
  | c :: t => startsWithChars (c :: t) needle || containsSubstr needle t

/-- The segment-resolution core of Node's `path.normalize`: drop empty and
`.` segments, resolve `..` against the accumulated stack (kept reversed),
keeping unresolvable `..` segments only for relative paths. -/
def normSegsAux (isAbs : Bool) : List Chars → List Chars → List Chars
  | stack, [] => stack.reverse
  | stack, s :: rest =>
    if s = [] ∨ s = ['.'] then normSegsAux isAbs stack rest
    else if s = ['.', '.'] then
      match stack with
      | [] => if isAbs then normSegsAux isAbs [] rest
              else normSegsAux isAbs [['.', '.']] rest
      | t :: ts =>
        if t = ['.', '.'] then normSegsAux isAbs (s :: stack) rest
        else normSegsAux isAbs ts rest
    else normSegsAux isAbs (s :: stack) rest

/-- Node `path.normalize` (POSIX) on character lists. -/
def normalizeChars (p : Chars) : Chars :=
  if p = [] then ['.']
  else
    let isAbs := p.head? = some '/'
    let trailing := p.getLast? = some '/'
    let segs := normSegsAux isAbs [] (splitSlash p)
    let body := joinSegs segs
    let body := if body ≠ [] ∧ trailing then body ++ ['/'] else body
    if isAbs then '/' :: body
    else if body = [] then (if trailing then ['.', '/'] else ['.'])
    else body

/-- Node `path.normalize` (POSIX). -/
def normalizeStr (s : String) : String := ⟨normalizeChars s.data⟩

/-- Node `path.join` (POSIX): concatenate the non-empty parts with `/` and
normalize; an empty join yields `"."`. -/
def joinChars (parts : List Chars) : Chars :=
  let joined := joinSegs (parts.filter (· ≠ []))
  if joined = [] then ['.'] else normalizeChars joined

/-- Node `path.join a b` (POSIX). -/
def joinPaths (a b : String) : String := ⟨joinChars [a.data, b.data]⟩

/-- The part of a path after its last `/` (the basename, for paths without a
trailing separator, which is the only shape the server ever produces). -/
def afterLastSlash (l : Chars) : Chars := (splitSlash l).getLastD []

/-- Node `path.basename` for paths without a trailing separator. -/
def basenameStr (s : String) : String := ⟨afterLastSlash s.data⟩

/-- The suffix starting at the last `.` of a character list, if any. -/
def extFrom : Chars → Option Chars
  | [] => none
  | '.' :: r =>
    match extFrom r with
    | some e => some e
    | none => some ('.' :: r)
  | _ :: r => extFrom r

/-- Node extension extraction on a basename: the suffix from the last dot,
except that a dot in position 0 (dotfiles) does not start an extension and
`".."` has no extension. -/
def extOfBase : Chars → Chars
  | [] => []
  | '.' :: rest => if rest = ['.'] then [] else (extFrom rest).getD []
  | c :: rest => (extFrom (c :: rest)).getD []

/-- Node `path.extname` (POSIX, paths without trailing separator). -/
def extname (s : String) : String := ⟨extOfBase (afterLastSlash s.data)⟩

/-- JavaScript `String.prototype.toLowerCase` (ASCII range, which covers the
extension strings the server compares against). -/
def lowerStr (s : String) : String := ⟨s.data.map Char.toLower⟩

/-- Segments of a normalized path, empty segments dropped. -/
def nonEmptySegs (p : Chars) : List Chars :=
  (splitSlash (normalizeChars p)).filter (· ≠ [])

/-- Drop the common prefix of two segment lists. -/
def dropCommon : List Chars → List Chars → List Chars × List Chars
  | a :: as, b :: bs => if a = b then dropCommon as bs else (a :: as, b :: bs)
  | as, bs => (as, bs)

/-- Node `path.relative` (POSIX) for absolute arguments (the server only ever
passes absolute paths, so the `cwd` resolution step is vacuous). -/
def relativeChars (fromP toP : Chars) : Chars :=
  let p := dropCommon (nonEmptySegs fromP) (nonEmptySegs toP)
  joinSegs (p.1.map (fun _ => ['.', '.']) ++ p.2)

/-- Node `path.relative a b` (POSIX, absolute arguments). -/
def pathRelative (a b : String) : String := ⟨relativeChars a.data b.data⟩

/-- `s.split(path.sep).join('/')` with POSIX `path.sep = '/'`. -/
def forwardSlash (s : String) : String := ⟨joinSegs (splitSlash s.data)⟩

/-! ## PathGuard -/

/-- `isPathSafe` from `server.js` (lines 101–106), with the process-wide
`EXTERNAL_IMAGE_DIR` made an explicit first argument: normalize the candidate,
then require that it starts with the root string and contains no `".."`
substring. -/
def isPathSafe (root targetPath : String) : Bool :=
  let normalizedPath := normalizeChars targetPath.data
  startsWithChars normalizedPath root.data && !(containsDotDot normalizedPath)

/-! ## JavaScript error values and truthiness helpers -/

instance {ε α : Type} [DecidableEq ε] [DecidableEq α] : DecidableEq (Except ε α) := fun a b =>
  match a, b with
  | .ok x, .ok y =>
    if h : x = y then .isTrue (by rw [h]) else .isFalse (by simp [h])
  | .error x, .error y =>
    if h : x = y then .isTrue (by rw [h]) else .isFalse (by simp [h])
  | .ok _, .error _ => .isFalse (by simp)
  | .error _, .ok _ => .isFalse (by simp)

/-- A JavaScript error value: constructor name, `message`, and the optional
`code` property carried by Node filesystem errors. -/
structure JsErr where
  name : String
  message : String
  code : Option String := none
deriving DecidableEq, Repr

/-- The error thrown by evaluating `mimeTypes[ext]`: no binding named
`mimeTypes` exists anywhere in the repository. -/
def referenceErrorMimeTypes : JsErr :=
  { name := "ReferenceError", message := "mimeTypes is not defined" }

/-- `x || d` on an optional string, with JavaScript truthiness
(`undefined` and `""` are falsy). -/
def jsTruthyStrOr (v : Option String) (d : String) : String :=
  match v with
  | some s => if s ≠ "" then s else d
  | none => d

/-- `x || d` on an optional integer, with JavaScript truthiness
(`undefined`, `NaN` (modelled as `none`) and `0` are falsy). -/
def jsTruthyIntOr (v : Option Int) (d : Int) : Int :=
  match v with
  | some n => if n ≠ 0 then n else d
  | none => d

/-- `a || b` on two optional strings with JavaScript truthiness, as used by
the metadata fallback chains (`tags.exif?.X?.description || ...`). -/
def jsTruthyOrOpt (a b : Option String) : Option String :=
  match a with
  | some s => if s ≠ "" then some s else b
  | none => b

/-! ## JavaScript `parseInt` -/

def jsWhitespace (c : Char) : Bool :=
  c == ' ' || c == '\t' || c == '\n' || c == '\r' || c == '\x0b' || c == '\x0c'

def isHexDigit (c : Char) : Bool :=
  c.isDigit || (decide (97 ≤ c.toNat) && decide (c.toNat ≤ 102)) ||
    (decide (65 ≤ c.toNat) && decide (c.toNat ≤ 70))

def hexDigitVal (c : Char) : Nat :=
  if c.isDigit then c.toNat - 48
  else if decide (97 ≤ c.toNat) then c.toNat - 87
  else c.toNat - 55

def digitsToNat (base : Nat) (ds : Chars) : Nat :=
  ds.foldl (fun acc c => acc * base + hexDigitVal c) 0

/-- Magnitude part of `parseInt` with no explicit radix: leading `0x`/`0X`
selects base 16, otherwise the maximal run of leading decimal digits is taken;
no digits means `NaN` (`none`). -/
def jsParseUnsigned (l : Chars) : Option Nat :=
  match l with
  | '0' :: c :: r =>
    if c = 'x' ∨ c = 'X' then
      let hs := r.takeWhile isHexDigit
      if hs = [] then none else some (digitsToNat 16 hs)
    else some (digitsToNat 10 (('0' :: c :: r).takeWhile Char.isDigit))
  | _ =>
    let ds := l.takeWhile Char.isDigit
    if ds = [] then none else some (digitsToNat 10 ds)

/-- JavaScript `parseInt(s)` (no radix argument): skip leading whitespace,
optional sign, then parse the leading digits; `none` models `NaN`. -/
def jsParseIntChars (l : Chars) : Option Int :=
  match l.dropWhile jsWhitespace with
  | '-' :: r => (jsParseUnsigned r).map (fun n => -(n : Int))
  | '+' :: r => (jsParseUnsigned r).map (fun n => (n : Int))
  | r => (jsParseUnsigned r).map (fun n => (n : Int))

/-- `parseInt(req.query.x)`: an absent query parameter is `undefined`, and
`parseInt(undefined)` is `NaN`. -/
def jsParseIntOpt (s : Option String) : Option Int :=
  match s with
  | none => none
  | some s => jsParseIntChars s.data

/-! ## MetadataExtractor (`getImageMetadata`, server.js lines 44–94) -/

/-- Result of `fsPromises.stat`: whether the target is a regular file, its
size, and its modification time rendered by `mtime.toISOString()`. -/
structure Stats where
  isFile : Bool
  size : Nat
  mtimeIso : String
deriving DecidableEq, Repr

/-- The EXIF tag groups `getImageMetadata` inspects, as returned by
`ExifReader.load`.  String tags model the `.description` property, numeric
tags the `.value` property; `none` models an absent tag.  The `gps` group
carries optional `Latitude` / `Longitude` numbers. -/
structure ExifTags where
  dateTimeOriginal : Option String := none
  dateTime : Option String := none
  make : Option String := none
  model : Option String := none
  orientation : Option Int := none
  imageWidth : Option Int := none
  imageHeight : Option Int := none
  gps : Option (Option Int × Option Int) := none
deriving DecidableEq, Repr

/-- The object literal `getImageMetadata` returns. -/
structure Metadata where
  fileName : String
  fileSize : Nat
  dateTime : String
  make : Option String := none
  model : Option String := none
  orientation : Int := 1
  width : Option Int := none
  height : Option Int := none
  gps : Option (Option Int × Option Int) := none
  error : Option String := none
deriving DecidableEq, Repr

/-- Oracle for the I/O performed by one `getImageMetadata` call, in program
order: the initial `stat`, the `readFile` (content abstracted away), the
`ExifReader.load` parse, and the two further `stat` calls made inside the
`catch` block.  An `error` value models the promise rejecting. -/
structure MetaFsOracle where
  stat1 : Except JsErr Stats
  readFile : Except JsErr Unit
  load : Except JsErr ExifTags
  stat2a : Except JsErr Stats
  stat2b : Except JsErr Stats
deriving DecidableEq, Repr

/-- Extensions for which metadata extraction is attempted. -/
def metaExts : List String := [".jpg", ".jpeg", ".tiff", ".png"]

/-- The success-path object literal (server.js lines 67–82), built from the
initial stat and the parsed tags, with JavaScript `||` fallbacks. -/
def buildMetadata (filePath : String) (st : Stats) (tags : ExifTags) : Metadata :=
  { fileName := basenameStr filePath
    fileSize := st.size
    dateTime := jsTruthyStrOr (jsTruthyOrOpt tags.dateTimeOriginal tags.dateTime) st.mtimeIso
    make := jsTruthyOrOpt tags.make none
    model := jsTruthyOrOpt tags.model none
    orientation := jsTruthyIntOr tags.orientation 1
    width := match tags.imageWidth with
      | some v => if v ≠ 0 then some v else none
      | none => none
    height := match tags.imageHeight with
      | some v => if v ≠ 0 then some v else none
      | none => none
    gps := tags.gps
    error := none }

/-- The body of the `try` block of `getImageMetadata`: extension gate, stat,
type check, read, parse.  Returns the thrown error on any failure. -/
def getImageMetadataTry (o : MetaFsOracle) (filePath : String) :
    Except JsErr (Option Metadata) :=
  if ¬ metaExts.contains (lowerStr (extname filePath)) then .ok none
  else
    match o.stat1 with
    | .error e => .error e
    | .ok st =>
      if ¬ st.isFile then .error { name := "Error", message := "Not a file" }
      else
        match o.readFile with
        | .error e => .error e
        | .ok _ =>
          match o.load with
          | .error e => .error e
          | .ok tags => .ok (some (buildMetadata filePath st tags))

/-- `getImageMetadata` (server.js lines 44–94).  The `catch` block re-stats
the file twice to build the degraded result; those stat calls are *not*
themselves guarded, so their rejection propagates to the caller (modelled as
the outer `.error`). -/
def getImageMetadata (o : MetaFsOracle) (filePath : String) :
    Except JsErr (Option Metadata) :=
  match getImageMetadataTry o filePath with
  | .ok r => .ok r
  | .error e =>
    match o.stat2a with
    | .error e2 => .error e2
    | .ok sa =>
      match o.stat2b with
      | .error e2 => .error e2
      | .ok sb =>
        .ok (some { fileName := basenameStr filePath
                    fileSize := sa.size
                    dateTime := sb.mtimeIso
                    orientation := 1
                    error := some e.message })

/-! ## DirectoryScanner (`getImagesRecursively`, server.js lines 108–140) -/

/-- A directory tree as seen by `readdir(..., { withFileTypes: true })`:
files carry the oracle for their `getImageMetadata` call. -/
inductive FsEntry where
  | file (name : String) (md : MetaFsOracle)
  | dir (name : String) (entries : List FsEntry)
deriving Repr

/-- One record pushed onto `images`; `metadata` is `none` when
`getImageMetadata` returned `null` (the `metadata || {}` case). -/
structure ImageRec where
  path : String
  metadata : Option Metadata
  filename : String
deriving DecidableEq, Repr

/-- Extensions accepted by the scanner (note: differs from `metaExts`). -/
def scanExts : List String := [".jpg", ".jpeg", ".png", ".gif"]

mutual

/-- The loop body of `getImagesRecursively`: errors thrown while processing
an entry (in practice only a rejection from `getImageMetadata`) propagate to
the enclosing directory's `catch`. -/
def scanEntry (root cur : String) : FsEntry → Except JsErr (List ImageRec)
  | .dir name sub =>
    -- the recursive call has its own try/catch and swallows its errors
    .ok (getImagesRecursively root (joinPaths cur name) sub)
  | .file name md =>
    if scanExts.contains (lowerStr (extname name)) then
      let fullPath := joinPaths cur name
      let relativePath := forwardSlash (pathRelative root fullPath)
      match getImageMetadata md fullPath with
      | .error e => .error e
      | .ok m => .ok [{ path := relativePath, metadata := m, filename := name }]
    else .ok []

def scanList (root cur : String) : List FsEntry → Except JsErr (List ImageRec)
  | [] => .ok []
  | e :: rest =>
    match scanEntry root cur e with
    | .error err => .error err
    | .ok xs =>
      match scanList root cur rest with
      | .error err => .error err
      | .ok ys => .ok (xs ++ ys)

/-- `getImagesRecursively` (server.js lines 108–140): any error raised while
scanning a directory is caught at that level and the whole directory yields
`[]`. -/
def getImagesRecursively (root cur : String) (entries : List FsEntry) : List ImageRec :=
  match scanList root cur entries with
  | .ok l => l
  | .error _ => []

end

/-! ## The streaming endpoint (`/stream/image/*`, server.js lines 183–335) -/

/-- What the filesystem and the `sharp` pipeline do for each path:
`kind` distinguishes missing paths, regular files and other existing entries
(directories etc.); `readable` is the `access(..., R_OK)` outcome for
existing paths; `transcodeOk` is whether `sharp(...).metadata()` resolves
(the corruption probe); `pipeOk` whether the transcode stream finishes;
`readStreamOk` whether a raw `createReadStream` of the file finishes. -/
inductive FileKind where
  | file
  | directory
  | missing
deriving DecidableEq, Repr

structure FS where
  kind : String → FileKind
  readable : String → Bool
  transcodeOk : String → Bool
  pipeOk : String → Bool
  readStreamOk : String → Bool

/-- Observable response-lifecycle events, in the order the handler performs
them: applying the resize step, setting a header, awaiting the
`sharp` metadata probe, and starting to write body bytes. -/
inductive Ev where
  | resize
  | setHeader (name : String)
  | probe
  | writeBody
deriving DecidableEq, Repr

inductive Body where
  | empty
  | text (s : String)
  | transcoded (path : String)
  | original (path : String)
deriving DecidableEq, Repr

/-- Replace an existing header or append a new one (`res.setHeader`). -/
def upsertHeader (n v : String) : List (String × String) → List (String × String)
  | [] => [(n, v)]
  | (k, w) :: rest => if k = n then (n, v) :: rest else (k, w) :: upsertHeader n v rest

def getHeader (n : String) : List (String × String) → Option String
  | [] => none
  | (k, w) :: rest => if k = n then some w else getHeader n rest

/-- The Express response object, reduced to what the handler observes:
headers set so far, status code, body, whether body bytes have been
committed to the wire, and the event trace. -/
structure Res where
  headers : List (String × String) := []
  status : Nat := 200
  body : Body := .empty
  bytesSent : Bool := false
  trace : List Ev := []
deriving DecidableEq, Repr

def emptyRes : Res := {}

def Res.setHeader (r : Res) (n v : String) : Res :=
  { r with headers := upsertHeader n v r.headers, trace := r.trace ++ [Ev.setHeader n] }

def Res.addEv (r : Res) (e : Ev) : Res := { r with trace := r.trace ++ [e] }

/-- The query parameters of a streaming request (raw strings; `none` models
an absent parameter). -/
structure Query where
  w : Option String := none
  q : Option String := none
  format : Option String := none
deriving DecidableEq, Repr

/-- The `options` object built per request (server.js lines 196–201). -/
structure TransformOptions where
  width : Int
  quality : Int
  format : String
  acceptsWebP : Bool
deriving DecidableEq, Repr

/-- Server.js lines 196–201: `parseInt(req.query.w) || 1280`,
`parseInt(req.query.q) || 80`, `req.query.format || 'auto'`, and
`req.headers.accept?.includes('image/webp')`. -/
def buildOptions (q : Query) (accept : Option String) : TransformOptions :=
  { width := jsTruthyIntOr (jsParseIntOpt q.w) 1280
    quality := jsTruthyIntOr (jsParseIntOpt q.q) 80
    format := jsTruthyStrOr q.format "auto"
    acceptsWebP := match accept with
      | none => false
      | some a => containsSubstr "image/webp".data a.data }

/-- The distinct errors `validateRequest` can throw: the three `Error`
messages it constructs, plus a rethrown filesystem error whose `code` is not
`'ENOENT'` (e.g. `EACCES` from the `access` call). -/
inductive VErr where
  | forbiddenPath
  | fileNotFound
  | notAFile
  | accessDenied
deriving DecidableEq, Repr

/-- `validateRequest` (server.js lines 226–243): path guard, then
`access(fullPath, R_OK)` (a missing path rejects with `ENOENT`, an unreadable
one with `EACCES`, which is rethrown as-is), then `stat` / `isFile`. -/
def validateRequest (fs : FS) (root fullPath : String) : Option VErr :=
  if ¬ isPathSafe root fullPath then some .forbiddenPath
  else
    match fs.kind fullPath with
    | .missing => some .fileNotFound
    | k =>
      if ¬ fs.readable fullPath then some .accessDenied
      else if k ≠ .file then some .notAFile
      else none

/-- Evaluating `mimeTypes[ext]`: the source reads `mimeTypes` in
`streamOriginalFile` (line 287) and in the default branch of
`applyOriginalFormat` (line 312), but no binding named `mimeTypes` exists
anywhere in the repository, so the lookup throws a `ReferenceError` before
the enclosing `res.setHeader(...)` call can run. -/
def mimeTypesLookup (_ext : String) : Except JsErr String :=
  .error referenceErrorMimeTypes

/-- Representative rejection of `sharp(...).metadata()` on a corrupt or
unsupported source (the message is never inspected by the server). -/
def sharpProbeError : JsErr :=
  { name := "Error", message := "Input file contains unsupported image format" }

/-- Representative mid-stream failure of the transcode pipe. -/
def sharpStreamError : JsErr := { name := "Error", message := "stream error" }

/-- Representative failure of the raw `createReadStream` pipe. -/
def fsStreamError : JsErr :=
  { name := "Error", message := "read stream error", code := some "ENOENT" }

/-- `applyOriginalFormat` (server.js lines 300–315), minus the `sharp`
encoder state it mutates (not observable): sets the content-type for
`jpg`/`jpeg`/`png`, and for any other extension evaluates `mimeTypes[ext]`,
which throws. -/
def applyOriginalFormat (ext : String) (r : Res) : Res × Option JsErr :=
  if ext = ".jpg" ∨ ext = ".jpeg" then (r.setHeader "Content-Type" "image/jpeg", none)
  else if ext = ".png" then (r.setHeader "Content-Type" "image/png", none)
  else
    match mimeTypesLookup ext with
    | .error e => (r, some e)
    | .ok m => (r.setHeader "Content-Type" (jsTruthyStrOr (some m) "application/octet-stream"), none)

/-- `processAndStreamImage` (server.js lines 246–282): build the pipeline
(resize applied when `width` is truthy), select the output format and set
the content-type, set the cache header, await the metadata probe, then pipe.
Returns the response as mutated up to the point of any thrown error. -/
def processAndStreamImage (fs : FS) (fullPath : String) (o : TransformOptions)
    (res : Res) : Res × Option JsErr :=
  let ext := lowerStr (extname fullPath)
  let r := if o.width ≠ 0 then res.addEv .resize else res
  let step :=
    if o.format = "webp" ∨ (o.format = "auto" ∧ o.acceptsWebP) then
      (r.setHeader "Content-Type" "image/webp", none)
    else applyOriginalFormat ext r
  match step with
  | (r1, some e) => (r1, some e)
  | (r1, none) =>
    let r2 := r1.setHeader "Cache-Control" "public, max-age=31536000"
    let r3 := r2.addEv .probe
    if ¬ fs.transcodeOk fullPath then (r3, some sharpProbeError)
    else
      let r4 := { r3.addEv .writeBody with bytesSent := true }
      if fs.pipeOk fullPath then ({ r4 with body := .transcoded fullPath }, none)
      else (r4, some sharpStreamError)

/-- `streamOriginalFile` (server.js lines 285–297): the first statement
evaluates `mimeTypes[ext]`, which throws before any of the fallback headers
can be set; the remaining (unreachable) steps follow the source. -/
def streamOriginalFile (fs : FS) (fullPath : String) (res : Res) : Res × Option JsErr :=
  let ext := lowerStr (extname fullPath)
  match mimeTypesLookup ext with
  | .error e => (res, some e)
  | .ok m =>
    let r := res.setHeader "Content-Type" (jsTruthyStrOr (some m) "application/octet-stream")
    let r := r.setHeader "Cache-Control" "public, max-age=31536000"
    let r := r.setHeader "X-Served-Original" "true"
    let r := { r.addEv .writeBody with bytesSent := true }
    if fs.readStreamOk fullPath then ({ r with body := .original fullPath }, none)
    else (r, some fsStreamError)

/-- `handleError` (server.js lines 318–335), keyed on the error identity
(`error.message` in the source); nothing is changed once headers are on the
wire. -/
def handleError (e : VErr) (r : Res) : Res :=
  if r.bytesSent then r
  else
    match e with
    | .forbiddenPath => { r with status := 403, body := .text "Forbidden" }
    | .fileNotFound => { r with status := 404, body := .text "File not found" }
    | .notAFile => { r with status := 400, body := .text "Not a file" }
    | .accessDenied => { r with status := 500, body := .text "Internal server error" }

/-- The `/stream/image/*` handler (server.js lines 183–223): join the decoded
path with the root, validate, build options, attempt the transcode, fall back
to the original file on failure, and emit a 500 if the fallback also fails.
A `res.status(500).send(...)` issued after body bytes have been committed
raises `ERR_HTTP_HEADERS_SENT`, which propagates to the outer catch whose
`headersSent` guard drops it, so the committed response is left as-is. -/
def streamImageHandler (fs : FS) (root imagePath : String) (q : Query)
    (accept : Option String) : Res :=
  let fullPath := joinPaths root imagePath
  match validateRequest fs root fullPath with
  | some e => handleError e emptyRes
  | none =>
    let o := buildOptions q accept
    match processAndStreamImage fs fullPath o emptyRes with
    | (r, none) => r
    | (r1, some _) =>
      match streamOriginalFile fs fullPath r1 with
      | (r2, none) => r2
      | (r2, some _) =>
        if r2.bytesSent then r2
        else { r2 with status := 500, body := .text "Internal Server Error" }

/-! ## Specification-side definitions

These are written from the (amended) claims' words, independently of the
handler's control flow, to be compared with the source-derived definitions
above. -/

/-- Scanner over an event trace: `true` iff no body byte is written before
the metadata probe has happened. -/
def noWriteBeforeProbe : List Ev → Bool
  | [] => true
  | .probe :: _ => true
  | .writeBody :: _ => false
  | _ :: t => noWriteBeforeProbe t

/-- Scanner over an event trace: `true` iff no header is set before the
metadata probe has happened (the ordering claim C4 states). -/
def noHeaderBeforeProbe : List Ev → Bool
  | [] => true
  | .probe :: _ => true
  | .setHeader _ :: _ => false
  | _ :: t => noHeaderBeforeProbe t

/-- The status taxonomy of the streaming endpoint, written flat from the
amended error-handling claim: syntactic path-guard rejection → 403; missing
path → 404; existing but unreadable → 500; existing non-file → 400; regular
readable file: a request whose content-type step succeeds (WebP negotiation,
or extension in {jpg, jpeg, png}) and whose probe passes → 200, every other
transcode failure falls back, and the fallback itself always fails (the MIME
table is missing), leaving 500 when no bytes were sent and the already
committed 200 stream otherwise. -/
def specStatus (fs : FS) (root imagePath : String) (o : TransformOptions) : Nat :=
  let fullPath := joinPaths root imagePath
  if ¬ isPathSafe root fullPath then 403
  else
    match fs.kind fullPath with
    | .missing => 404
    | .directory => if fs.readable fullPath then 400 else 500
    | .file =>
      if ¬ fs.readable fullPath then 500
      else
        let ext := lowerStr (extname fullPath)
        if o.format = "webp" ∨ (o.format = "auto" ∧ o.acceptsWebP) then
          if fs.transcodeOk fullPath then 200 else 500
        else if ext = ".jpg" ∨ ext = ".jpeg" ∨ ext = ".png" then
          if fs.transcodeOk fullPath then 200 else 500
        else 500

/-- A well-formed path segment: non-empty, not `.` or `..`, no separator. -/
def normSeg (s : Chars) : Bool :=
  s ≠ [] && s ≠ ['.'] && s ≠ ['.', '.'] && !(s.contains '/')

/-- The absolute path with the given segments. -/
def absString (segs : List String) : String :=
  ⟨'/' :: joinSegs (segs.map String.data)⟩

/-- Root-relative path with forward-slash separators, straight from the
segment names. -/
def relJoin (segs : List String) : String := ⟨joinSegs (segs.map String.data)⟩

/-- Whether this file's `getImageMetadata` call completes without raising
(the extraction may still degrade to partial data). -/
def mdNoThrow (md : MetaFsOracle) (name : String) : Bool :=
  match getImageMetadata md name with
  | .ok _ => true
  | .error _ => false

/-- The metadata value a record for this file carries. -/
def mdOf (md : MetaFsOracle) (name : String) : Option Metadata :=
  match getImageMetadata md name with
  | .ok m => m
  | .error _ => none

mutual

/-- Spec-side expected records: exactly one record per file whose extension
is in the scan set, with the root-relative forward-slash path made of the
directory names leading to it, recursing into every subdirectory. -/
def expectedEntry (prefixSegs : List String) : FsEntry → List ImageRec
  | .file name md =>
    if scanExts.contains (lowerStr (extname name)) then
      [{ path := relJoin (prefixSegs ++ [name]), metadata := mdOf md name, filename := name }]
    else []
  | .dir name subs => expectedList (prefixSegs ++ [name]) subs

def expectedList (prefixSegs : List String) : List FsEntry → List ImageRec
  | [] => []
  | e :: rest => expectedEntry prefixSegs e ++ expectedList prefixSegs rest

end

mutual

/-- Well-formedness of a tree: every name is a plain segment and no file's
metadata extraction raises. -/
def entryOk : FsEntry → Bool
  | .file name md =>
    normSeg name.data &&
      (!(scanExts.contains (lowerStr (extname name))) || mdNoThrow md name)
  | .dir name subs => normSeg name.data && entriesOk subs

def entriesOk : List FsEntry → Bool
  | [] => true
  | e :: rest => entryOk e && entriesOk rest

end

/-! ## Concrete fixtures -/

/-- An ENOENT rejection from `fsPromises` (file vanished). -/
def enoentErr : JsErr :=
  { name := "Error", message := "ENOENT: no such file or directory", code := some "ENOENT" }

/-- Oracle for a healthy image file with no embedded tags. -/
def mdOk : MetaFsOracle :=
  { stat1 := .ok { isFile := true, size := 5, mtimeIso := "2021-05-05T00:00:00.000Z" }
    readFile := .ok ()
    load := .ok {}
    stat2a := .ok { isFile := true, size := 5, mtimeIso := "2021-05-05T00:00:00.000Z" }
    stat2b := .ok { isFile := true, size := 5, mtimeIso := "2021-05-05T00:00:00.000Z" } }

/-- Oracle for a file that vanishes after the initial stat: the read rejects,
and the unguarded stat calls inside the `catch` block reject too. -/
def mdVanish : MetaFsOracle :=
  { stat1 := .ok { isFile := true, size := 1000, mtimeIso := "2020-01-01T00:00:00.000Z" }
    readFile := .error enoentErr
    load := .error enoentErr
    stat2a := .error enoentErr
    stat2b := .error enoentErr }

/-- Oracle for a corrupt-but-present file: the tag parse rejects, the
degraded-stat calls succeed. -/
def mdCorrupt : MetaFsOracle :=
  { stat1 := .ok { isFile := true, size := 7, mtimeIso := "2022-02-02T00:00:00.000Z" }
    readFile := .ok ()
    load := .error { name := "Error", message := "Invalid image format" }
    stat2a := .ok { isFile := true, size := 7, mtimeIso := "2022-02-02T00:00:00.000Z" }
    stat2b := .ok { isFile := true, size := 7, mtimeIso := "2022-02-02T00:00:00.000Z" } }

/-- A filesystem with a few regular files under `/images`: a healthy jpg and
png, a gif, and a jpg whose transcode probe fails; `/images/sub` is a
directory. -/
def fsMixed : FS :=
  { kind := fun p =>
      if p = "/images/a.jpg" ∨ p = "/images/b.png" ∨ p = "/images/c.gif" ∨
          p = "/images/broken.jpg" then .file
      else if p = "/images/sub" then .directory
      else .missing
    readable := fun _ => true
    transcodeOk := fun p => p ≠ "/images/broken.jpg"
    pipeOk := fun _ => true
    readStreamOk := fun _ => true }

/-- The directory layout of the spec's listing example: `a.jpg`, `b.png`,
`ignore.txt` and an empty subdirectory `c/`. -/
def exampleEntries : List FsEntry :=
  [.file "a.jpg" mdOk, .file "b.png" mdOk, .file "ignore.txt" mdOk, .dir "c" []]

/-- A directory holding a healthy image and one that vanishes mid-scan. -/
def vanishEntries : List FsEntry :=
  [.file "a.jpg" mdOk, .file "v.jpg" mdVanish]

/-- A tree whose subdirectory holds a healthy image and a vanishing one,
next to a healthy top-level image. -/
def subCollapseEntries : List FsEntry :=
  [.dir "sub" [.file "a.jpg" mdOk, .file "v.jpg" mdVanish], .file "b.png" mdOk]

/-- Tags of a concrete tagged image: a capture timestamp, a make, and no
orientation tag. -/
def tagsTagged : ExifTags :=
  { dateTimeOriginal := some "2019:01:01 10:00:00", make := some "Canon" }

/-- Oracle for a healthy image file carrying `tagsTagged`. -/
def mdTagged : MetaFsOracle :=
  { stat1 := .ok { isFile := true, size := 42, mtimeIso := "2023-03-03T00:00:00.000Z" }
    readFile := .ok ()
    load := .ok tagsTagged
    stat2a := .ok { isFile := true, size := 42, mtimeIso := "2023-03-03T00:00:00.000Z" }
    stat2b := .ok { isFile := true, size := 42, mtimeIso := "2023-03-03T00:00:00.000Z" } }

/-! ## String lemmas -/

theorem startsWithChars_iff : ∀ (l p : Chars), startsWithChars l p = true ↔ ∃ t, l = p ++ t
  | _, [] => by simp [startsWithChars]
  | [], _ :: _ => by simp [startsWithChars]
  | h :: hs, c :: cs => by
    simp only [startsWithChars, Bool.and_eq_true, decide_eq_true_eq,
      startsWithChars_iff hs cs]
    constructor
    · rintro ⟨rfl, t, rfl⟩
      exact ⟨t, rfl⟩
    · rintro ⟨t, ht⟩
      injection ht with h1 h2
      exact ⟨h1, t, h2⟩

theorem containsDotDot_iff : ∀ l : Chars,
    containsDotDot l = true ↔ ∃ a b, l = a ++ '.' :: '.' :: b
  | [] => by simp [containsDotDot]
  | c :: t => by
    simp only [containsDotDot, Bool.or_eq_true, startsWithChars_iff,
      containsDotDot_iff t]
    constructor
    · rintro (⟨r, hr⟩ | ⟨a, b, rfl⟩)
      · exact ⟨[], r, by simpa using hr⟩
      · exact ⟨c :: a, b, rfl⟩
    · rintro ⟨a, b, hab⟩
      cases a with
      | nil => exact Or.inl ⟨b, by simpa using hab⟩
      | cons x xs =>
        injection hab with h1 h2
        exact Or.inr ⟨xs, b, h2⟩

/-! ## Path lemmas -/

theorem normSeg_spec {s : Chars} (h : normSeg s = true) :
    s ≠ [] ∧ s ≠ ['.'] ∧ s ≠ ['.', '.'] ∧ '/' ∉ s := by
  simp only [normSeg, Bool.and_eq_true, decide_eq_true_eq, Bool.not_eq_true'] at h
  refine ⟨h.1.1.1, h.1.1.2, h.1.2, ?_⟩
  simpa using h.2

theorem splitSlash_noSlash (l : Chars) (h : '/' ∉ l) : splitSlash l = [l] := by
  induction l with
  | nil => rfl
  | cons c r ih =>
    have hc : ¬ c = '/' := fun hc => h (hc ▸ List.mem_cons_self c r)
    have hr : '/' ∉ r := fun hm => h (List.mem_cons_of_mem _ hm)
    simp only [splitSlash, ih hr]
    simp [hc]

theorem splitSlash_append (xs ys : Chars) (h : '/' ∉ xs) :
    splitSlash (xs ++ '/' :: ys) = xs :: splitSlash ys := by
  induction xs with
  | nil => simp [splitSlash]
  | cons c r ih =>
    have hc : ¬ c = '/' := fun hc => h (hc ▸ List.mem_cons_self c r)
    have hr : '/' ∉ r := fun hm => h (List.mem_cons_of_mem _ hm)
    simp only [List.cons_append, splitSlash, ih hr]
    simp [hc]
    rw [ih hr]

theorem splitSlash_joinSegs : ∀ segs : List Chars, segs ≠ [] →
    (∀ s ∈ segs, '/' ∉ s) → splitSlash (joinSegs segs) = segs
  | [], h, _ => absurd rfl h
  | [s], _, hs => splitSlash_noSlash s (hs s (by simp))
  | s :: s2 :: rest, _, hs => by
    have he : joinSegs (s :: s2 :: rest) = s ++ '/' :: joinSegs (s2 :: rest) := rfl
    rw [he, splitSlash_append _ _ (hs s (by simp)),
      splitSlash_joinSegs (s2 :: rest) (by simp) (fun x hx => hs x (by simp [hx]))]

theorem joinSegs_ne_nil : ∀ segs : List Chars, segs ≠ [] →
    (∀ s ∈ segs, s ≠ []) → joinSegs segs ≠ []
  | [], h, _ => absurd rfl h
  | [s], _, hs => hs s (by simp)
  | s :: s2 :: rest, _, hs => by
    have he : joinSegs (s :: s2 :: rest) = s ++ '/' :: joinSegs (s2 :: rest) := rfl
    rw [he]
    have := hs s (by simp)
    cases s with
    | nil => simp at this
    | cons c r => simp

theorem joinSegs_append_single : ∀ (segs : List Chars) (x : Chars), segs ≠ [] →
    joinSegs (segs ++ [x]) = joinSegs segs ++ '/' :: x
  | [], _, h => absurd rfl h
  | [s], x, _ => rfl
  | s :: s2 :: rest, x, _ => by
    have h1 : joinSegs ((s :: s2 :: rest) ++ [x]) =
        s ++ '/' :: joinSegs ((s2 :: rest) ++ [x]) := rfl
    have h2 : joinSegs (s :: s2 :: rest) = s ++ '/' :: joinSegs (s2 :: rest) := rfl
    rw [h1, h2, joinSegs_append_single (s2 :: rest) x (by simp)]
    simp

theorem joinSegs_getLast_ne_slash : ∀ segs : List Chars,
    (∀ s ∈ segs, normSeg s = true) → segs ≠ [] →
    ¬ (joinSegs segs).getLast? = some '/'
  | [], _, h => absurd rfl h
  | [s], hs, _ => by
    intro hlast
    have h := normSeg_spec (hs s (by simp))
    have hlast' : s.getLast? = some '/' := hlast
    have hmem : '/' ∈ s.getLast? := by rw [Option.mem_def]; exact hlast'
    exact h.2.2.2 (List.mem_of_mem_getLast? hmem)
  | s :: s2 :: rest, hs, _ => by
    intro hlast
    have he : joinSegs (s :: s2 :: rest) = s ++ '/' :: joinSegs (s2 :: rest) := rfl
    rw [he, List.getLast?_append_of_ne_nil _ (by simp)] at hlast
    have hr : (joinSegs (s2 :: rest)).getLast? = some '/' := by
      have hne : joinSegs (s2 :: rest) ≠ [] :=
        joinSegs_ne_nil _ (by simp)
          (fun x hx => (normSeg_spec (hs x (by simp [hx]))).1)
      rwa [show ('/' :: joinSegs (s2 :: rest)) = ['/'] ++ joinSegs (s2 :: rest) from rfl,
        List.getLast?_append_of_ne_nil _ hne] at hlast
    exact joinSegs_getLast_ne_slash (s2 :: rest)
      (fun x hx => hs x (by simp [hx])) (by simp) hr

theorem normSegsAux_all_norm : ∀ (segs : List Chars) (b : Bool) (acc : List Chars),
    (∀ s ∈ segs, normSeg s = true) → normSegsAux b acc segs = acc.reverse ++ segs
  | [], b, acc, _ => by simp [normSegsAux]
  | s :: rest, b, acc, hs => by
    have h := normSeg_spec (hs s (by simp))
    simp only [normSegsAux]
    rw [if_neg (by simp [h.1, h.2.1]), if_neg (by simp [h.2.2.1]),
      normSegsAux_all_norm rest b (s :: acc) (fun x hx => hs x (by simp [hx]))]
    simp

theorem splitSlash_absChars (segs : List Chars) (hne : segs ≠ [])
    (hs : ∀ s ∈ segs, normSeg s = true) :
    splitSlash ('/' :: joinSegs segs) = [] :: segs := by
  have h : ('/' :: joinSegs segs) = [] ++ '/' :: joinSegs segs := rfl
  rw [h, splitSlash_append [] _ (by simp),
    splitSlash_joinSegs segs hne (fun x hx => (normSeg_spec (hs x hx)).2.2.2)]

theorem normalizeChars_abs (segs : List Chars) (hne : segs ≠ [])
    (hs : ∀ s ∈ segs, normSeg s = true) :
    normalizeChars ('/' :: joinSegs segs) = '/' :: joinSegs segs := by
  have hbody : joinSegs segs ≠ [] :=
    joinSegs_ne_nil segs hne (fun x hx => (normSeg_spec (hs x hx)).1)
  have hlast : ('/' :: joinSegs segs).getLast? ≠ some '/' := by
    rw [show ('/' :: joinSegs segs) = ['/'] ++ joinSegs segs from rfl,
      List.getLast?_append_of_ne_nil _ hbody]
    exact joinSegs_getLast_ne_slash segs hs hne
  have e2 : ∀ b : Bool, normSegsAux b [] ([] :: segs) = segs := by
    intro b
    have h0 : normSegsAux b [] ([] :: segs) = normSegsAux b [] segs := by
      simp [normSegsAux]
    rw [h0, normSegsAux_all_norm segs b [] hs]
    simp
  simp only [normalizeChars]
  rw [if_neg (by simp)]
  simp [splitSlash_absChars segs hne hs, e2, hbody, hlast]

/-- `path.join` of a well-formed absolute directory and a plain name appends
one segment. -/
theorem joinChars_abs (segs : List Chars) (n : Chars) (hne : segs ≠ [])
    (hs : ∀ s ∈ segs, normSeg s = true) (hn : normSeg n = true) :
    joinChars ['/' :: joinSegs segs, n] = '/' :: joinSegs (segs ++ [n]) := by
  have hsall : ∀ s ∈ segs ++ [n], normSeg s = true := by
    intro x hx
    rcases List.mem_append.mp hx with h | h
    · exact hs x h
    · simp at h
      exact h ▸ hn
  have hfilter : (['/' :: joinSegs segs, n].filter (· ≠ [])) = ['/' :: joinSegs segs, n] := by
    rw [List.filter_eq_self]
    intro a ha
    simp only [List.mem_cons, List.mem_singleton] at ha
    rcases ha with rfl | rfl | h
    · simp
    · simpa using (normSeg_spec hn).1
    · simp at h
  have hjoined : joinSegs ['/' :: joinSegs segs, n] = '/' :: joinSegs (segs ++ [n]) := by
    show ('/' :: joinSegs segs) ++ '/' :: n = _
    rw [joinSegs_append_single segs n hne]
    simp
  simp only [joinChars, hfilter, hjoined]
  rw [if_neg (by simp), normalizeChars_abs (segs ++ [n]) (by simp) hsall]

theorem joinPaths_absString (segs : List String) (n : String) (hne : segs ≠ [])
    (hs : ∀ s ∈ segs, normSeg s.data = true) (hn : normSeg n.data = true) :
    joinPaths (absString segs) n = absString (segs ++ [n]) := by
  have h : joinChars [(absString segs).data, n.data] =
      '/' :: joinSegs ((segs ++ [n]).map String.data) := by
    show joinChars ['/' :: joinSegs (segs.map String.data), n.data] = _
    rw [joinChars_abs (segs.map String.data) n.data (by simpa using hne)
      (by intro x hx; obtain ⟨y, hy, rfl⟩ := List.mem_map.mp hx; exact hs y hy) hn]
    simp
  show (⟨joinChars [(absString segs).data, n.data]⟩ : String) = _
  rw [h]
  rfl

theorem afterLastSlash_absChars (segs : List Chars) (n : Chars)
    (hs : ∀ s ∈ segs, normSeg s = true) (hn : normSeg n = true) :
    afterLastSlash ('/' :: joinSegs (segs ++ [n])) = n := by
  have hsall : ∀ s ∈ segs ++ [n], normSeg s = true := by
    intro x hx
    rcases List.mem_append.mp hx with h | h
    · exact hs x h
    · simp at h
      exact h ▸ hn
  rw [afterLastSlash, splitSlash_absChars (segs ++ [n]) (by simp) hsall]
  rw [show ([] :: (segs ++ [n])) = [([] : Chars)] ++ (segs ++ [n]) from rfl]
  simp only [List.getLastD_eq_getLast?, List.getLast?_append_of_ne_nil _
    (show segs ++ [n] ≠ [] by simp), List.getLast?_concat]
  rfl

theorem afterLastSlash_noSlash (n : Chars) (h : '/' ∉ n) : afterLastSlash n = n := by
  rw [afterLastSlash, splitSlash_noSlash n h]
  rfl

theorem basenameStr_noSlash (n : String) (h : '/' ∉ n.data) : basenameStr n = n := by
  show (⟨afterLastSlash n.data⟩ : String) = n
  rw [afterLastSlash_noSlash n.data h]

theorem extname_absString (segs : List String) (n : String)
    (hs : ∀ s ∈ segs, normSeg s.data = true) (hn : normSeg n.data = true) :
    extname (absString (segs ++ [n])) = extname n := by
  show (⟨extOfBase (afterLastSlash ('/' :: joinSegs ((segs ++ [n]).map String.data)))⟩ : String)
    = ⟨extOfBase (afterLastSlash n.data)⟩
  rw [List.map_append]
  simp only [List.map_cons, List.map_nil]
  rw [afterLastSlash_absChars (segs.map String.data) n.data
    (by intro x hx; obtain ⟨y, hy, rfl⟩ := List.mem_map.mp hx; exact hs y hy) hn]
  rw [afterLastSlash_noSlash n.data (normSeg_spec hn).2.2.2]

theorem basenameStr_absString (segs : List String) (n : String)
    (hs : ∀ s ∈ segs, normSeg s.data = true) (hn : normSeg n.data = true) :
    basenameStr (absString (segs ++ [n])) = n := by
  show (⟨afterLastSlash ('/' :: joinSegs ((segs ++ [n]).map String.data))⟩ : String) = n
  rw [List.map_append]
  simp only [List.map_cons, List.map_nil]
  rw [afterLastSlash_absChars (segs.map String.data) n.data
    (by intro x hx; obtain ⟨y, hy, rfl⟩ := List.mem_map.mp hx; exact hs y hy) hn]

theorem dropCommon_prefix : ∀ l e : List Chars, dropCommon l (l ++ e) = ([], e)
  | [], e => by cases e <;> rfl
  | a :: as, e => by
    have h : dropCommon (a :: as) ((a :: as) ++ e) =
        dropCommon as (as ++ e) := by
      simp [dropCommon]
    rw [h, dropCommon_prefix as e]

theorem relativeChars_abs (rootSegs extra : List Chars) (hne : rootSegs ≠ [])
    (hroot : ∀ s ∈ rootSegs, normSeg s = true)
    (hextra : ∀ s ∈ extra, normSeg s = true) :
    relativeChars ('/' :: joinSegs rootSegs) ('/' :: joinSegs (rootSegs ++ extra)) =
      joinSegs extra := by
  have hall : ∀ s ∈ rootSegs ++ extra, normSeg s = true := by
    intro x hx
    rcases List.mem_append.mp hx with h | h
    · exact hroot x h
    · exact hextra x h
  have h1 : nonEmptySegs ('/' :: joinSegs rootSegs) = rootSegs := by
    rw [nonEmptySegs, normalizeChars_abs rootSegs hne hroot,
      splitSlash_absChars rootSegs hne hroot]
    rw [List.filter_cons]
    simp only [decide_not]
    rw [if_neg (by simp)]
    rw [List.filter_eq_self]
    intro a ha
    simpa using (normSeg_spec (hroot a ha)).1
  have h2 : nonEmptySegs ('/' :: joinSegs (rootSegs ++ extra)) = rootSegs ++ extra := by
    rw [nonEmptySegs, normalizeChars_abs (rootSegs ++ extra) (by simp [hne]) hall,
      splitSlash_absChars (rootSegs ++ extra) (by simp [hne]) hall]
    rw [List.filter_cons]
    simp only [decide_not]
    rw [if_neg (by simp)]
    rw [List.filter_eq_self]
    intro a ha
    simpa using (normSeg_spec (hall a ha)).1
  rw [relativeChars, h1, h2, dropCommon_prefix]
  simp

theorem pathRelative_absString (rootS extra : List String) (hne : rootS ≠ [])
    (hroot : ∀ s ∈ rootS, normSeg s.data = true)
    (hextra : ∀ s ∈ extra, normSeg s.data = true) :
    pathRelative (absString rootS) (absString (rootS ++ extra)) = relJoin extra := by
  show (⟨relativeChars ('/' :: joinSegs (rootS.map String.data))
      ('/' :: joinSegs ((rootS ++ extra).map String.data))⟩ : String) = _
  rw [List.map_append]
  rw [relativeChars_abs (rootS.map String.data) (extra.map String.data)
    (by simpa using hne)
    (by intro x hx; obtain ⟨y, hy, rfl⟩ := List.mem_map.mp hx; exact hroot y hy)
    (by intro x hx; obtain ⟨y, hy, rfl⟩ := List.mem_map.mp hx; exact hextra y hy)]
  rfl

theorem forwardSlash_relJoin (segs : List String) (hne : segs ≠ [])
    (hs : ∀ s ∈ segs, normSeg s.data = true) :
    forwardSlash (relJoin segs) = relJoin segs := by
  show (⟨joinSegs (splitSlash (joinSegs (segs.map String.data)))⟩ : String) = _
  rw [splitSlash_joinSegs (segs.map String.data) (by simpa using hne)
    (by intro x hx; obtain ⟨y, hy, rfl⟩ := List.mem_map.mp hx
        exact (normSeg_spec (hs y hy)).2.2.2)]
  rfl

theorem getImageMetadata_congr (md : MetaFsOracle) (p q : String)
    (hext : extname p = extname q) (hbase : basenameStr p = basenameStr q) :
    getImageMetadata md p = getImageMetadata md q := by
  unfold getImageMetadata getImageMetadataTry buildMetadata
  rw [hext, hbase]

/-! ## Scanner lemmas -/

theorem joinPaths_cons_name (rootS extra : List String) (name : String)
    (hr : rootS ≠ []) (hrs : ∀ s ∈ rootS, normSeg s.data = true)
    (hes : ∀ s ∈ extra, normSeg s.data = true) (hn : normSeg name.data = true) :
    joinPaths (absString (rootS ++ extra)) name =
      absString (rootS ++ (extra ++ [name])) := by
  rw [joinPaths_absString (rootS ++ extra) name (by simp [hr])
    (fun s hsm => (List.mem_append.mp hsm).elim (hrs s) (hes s)) hn,
    List.append_assoc]

theorem relPath_cons_name (rootS extra : List String) (name : String)
    (hr : rootS ≠ []) (hrs : ∀ s ∈ rootS, normSeg s.data = true)
    (hes : ∀ s ∈ extra, normSeg s.data = true) (hn : normSeg name.data = true) :
    forwardSlash (pathRelative (absString rootS)
        (absString (rootS ++ (extra ++ [name])))) =
      relJoin (extra ++ [name]) := by
  have hall : ∀ s ∈ extra ++ [name], normSeg s.data = true := by
    intro s hsm
    rcases List.mem_append.mp hsm with h | h
    · exact hes s h
    · simp only [List.mem_singleton] at h
      exact h ▸ hn
  rw [pathRelative_absString rootS (extra ++ [name]) hr hrs hall]
  exact forwardSlash_relJoin (extra ++ [name]) (by simp) hall

theorem getImageMetadata_join (md : MetaFsOracle) (rootS extra : List String)
    (name : String)
    (hrs : ∀ s ∈ rootS, normSeg s.data = true)
    (hes : ∀ s ∈ extra, normSeg s.data = true) (hn : normSeg name.data = true) :
    getImageMetadata md (absString (rootS ++ (extra ++ [name]))) =
      getImageMetadata md name := by
  have hall : ∀ s ∈ rootS ++ extra, normSeg s.data = true := fun s hsm =>
    (List.mem_append.mp hsm).elim (hrs s) (hes s)
  rw [← List.append_assoc]
  exact getImageMetadata_congr md _ name
    (by rw [extname_absString (rootS ++ extra) name hall hn])
    (by rw [basenameStr_absString (rootS ++ extra) name hall hn,
      basenameStr_noSlash name (normSeg_spec hn).2.2.2])

mutual

theorem scanEntry_expected (rootS extra : List String) (e : FsEntry)
    (hr : rootS ≠ []) (hrs : ∀ s ∈ rootS, normSeg s.data = true)
    (hes : ∀ s ∈ extra, normSeg s.data = true) (he : entryOk e = true) :
    scanEntry (absString rootS) (absString (rootS ++ extra)) e =
      .ok (expectedEntry extra e) := by
  cases e with
  | file name md =>
    have hname : normSeg name.data = true := by
      simp only [entryOk, Bool.and_eq_true] at he
      exact he.1
    by_cases hsc : scanExts.contains (lowerStr (extname name)) = true
    · have hmdnt : mdNoThrow md name = true := by
        simp only [entryOk, Bool.and_eq_true, Bool.or_eq_true, Bool.not_eq_true'] at he
        rcases he.2 with h | h
        · rw [hsc] at h
          cases h
        · exact h
      obtain ⟨m, hm⟩ : ∃ m, getImageMetadata md name = .ok m := by
        unfold mdNoThrow at hmdnt
        cases hgm : getImageMetadata md name with
        | ok m => exact ⟨m, rfl⟩
        | error err => rw [hgm] at hmdnt; cases hmdnt
      simp only [scanEntry, expectedEntry, hsc, if_true]
      rw [joinPaths_cons_name rootS extra name hr hrs hes hname,
        relPath_cons_name rootS extra name hr hrs hes hname,
        getImageMetadata_join md rootS extra name hrs hes hname, hm]
      simp [mdOf, hm]
    · simp only [scanEntry, expectedEntry, hsc]
      simp [hsc]
  | dir name subs =>
    have h2 : normSeg name.data = true ∧ entriesOk subs = true := by
      simp only [entryOk, Bool.and_eq_true] at he
      exact he
    have hes' : ∀ s ∈ extra ++ [name], normSeg s.data = true := by
      intro s hsm
      rcases List.mem_append.mp hsm with h | h
      · exact hes s h
      · simp only [List.mem_singleton] at h
        exact h ▸ h2.1
    have hsub := scanList_expected rootS (extra ++ [name]) subs hr hrs hes' h2.2
    simp only [scanEntry, expectedEntry]
    rw [joinPaths_cons_name rootS extra name hr hrs hes h2.1]
    simp only [getImagesRecursively, hsub]

theorem scanList_expected (rootS extra : List String) (es : List FsEntry)
    (hr : rootS ≠ []) (hrs : ∀ s ∈ rootS, normSeg s.data = true)
    (hes : ∀ s ∈ extra, normSeg s.data = true) (hok : entriesOk es = true) :
    scanList (absString rootS) (absString (rootS ++ extra)) es =
      .ok (expectedList extra es) := by
  cases es with
  | nil => simp [scanList, expectedList]
  | cons e rest =>
    have h : entryOk e = true ∧ entriesOk rest = true := by
      simp only [entriesOk, Bool.and_eq_true] at hok
      exact hok
    simp only [scanList, expectedList]
    rw [scanEntry_expected rootS extra e hr hrs hes h.1,
      scanList_expected rootS extra rest hr hrs hes h.2]

end

/-! ## C1: the PathGuard characterization -/

/-- C1 (counterexample): the relative path `../images2/x` contains `..` (and
its root-join resolves to `/images2/x`, outside the root `/images`), yet
`isPathSafe` accepts the root-joined path, because `path.join` resolves the
`..` away before the guard runs and `/images2/x` textually extends the root
string `/images`.  The claim "isPathSafe applied to the root-joined P returns
false" is therefore false at this input. -/
theorem C1_pathGuard_counterexample :
    containsDotDot "../images2/x".data = true ∧
    joinPaths "/images" "../images2/x" = "/images2/x" ∧
    isPathSafe "/images" (joinPaths "/images" "../images2/x") = true := by
  decide

/-- C1 (amended): `isPathSafe` returns true iff the normalized candidate
string literally extends the RootDirectory string (with no separator-boundary
requirement) and contains no two-character `..` substring.  No guarantee is
made for relative paths whose `..` segments are resolved away by the
join-normalization, nor for paths in sibling directories whose name extends
the root string. -/
theorem C1_pathGuard_amended (root t : String) :
    isPathSafe root t = true ↔
      (∃ rest : Chars, normalizeChars t.data = root.data ++ rest) ∧
        ¬ ∃ a b : Chars, normalizeChars t.data = a ++ '.' :: '.' :: b := by
  unfold isPathSafe
  simp only [Bool.and_eq_true, Bool.not_eq_true', startsWithChars_iff]
  constructor
  · rintro ⟨h1, h2⟩
    refine ⟨h1, fun hex => ?_⟩
    rw [(containsDotDot_iff _).mpr hex] at h2
    exact Bool.noConfusion h2
  · rintro ⟨h1, h2⟩
    refine ⟨h1, ?_⟩
    cases hc : containsDotDot (normalizeChars t.data) with
    | false => rfl
    | true => exact absurd ((containsDotDot_iff _).mp hc) h2

/-- C1 witness: the amended characterization applied at a concrete safe
path. -/
theorem C1_pathGuard_witness :
    isPathSafe "/images" "/images/sub/a.jpg" = true := by
  rw [C1_pathGuard_amended]
  constructor
  · exact ⟨"/sub/a.jpg".data, by decide⟩
  · intro hex
    have hc : containsDotDot (normalizeChars "/images/sub/a.jpg".data) = true :=
      (containsDotDot_iff _).mpr hex
    exact absurd hc (by decide)

/-! ## C2: the fallback-to-original path is unreachable -/

/-- C2: on a validated regular file whose transcode probe fails, the claim
says the endpoint responds 200 with the original bytes and the
`X-Served-Original` marker.  Instead the fallback itself throws (the
`mimeTypes` table it reads on its first line is not defined anywhere in the
repository), so the endpoint responds 500 with no marker header, and
`streamOriginalFile` rejects without having touched the response. -/
theorem C2_fallback_broken :
    (streamImageHandler fsMixed "/images" "broken.jpg" {} none).status = 500 ∧
    (streamImageHandler fsMixed "/images" "broken.jpg" {} none).body =
      Body.text "Internal Server Error" ∧
    getHeader "X-Served-Original"
      (streamImageHandler fsMixed "/images" "broken.jpg" {} none).headers = none ∧
    streamOriginalFile fsMixed "/images/broken.jpg" emptyRes =
      (emptyRes, some referenceErrorMimeTypes) := by
  decide

/-! ## C3: metadata extraction can raise after all -/

/-- C3: for a file that vanishes between the initial stat and the recovery
branch, the unguarded stat calls inside the `catch` block reject and
`getImageMetadata` raises to its caller instead of returning degraded
`Metadata`; inside the scanner this rejection is caught at the directory
level, collapsing the whole directory's listing to `[]` rather than
affecting the single file only. -/
theorem C3_secondary_stat_unguarded :
    getImageMetadata mdVanish "/images/v.jpg" = .error enoentErr ∧
    getImagesRecursively "/images" "/images" vanishEntries = [] := by
  refine ⟨by decide, ?_⟩
  simp only [getImagesRecursively, scanList, scanEntry, vanishEntries]
  decide

/-! ## C4: where the metadata probe sits relative to headers and body -/

/-- C4 (counterexample): on a plain successful jpeg transcode, the event
trace shows both headers being set *before* the metadata probe runs, so the
claim that the validation pass "happens before any response headers are set"
is false. -/
theorem C4_probe_order_counterexample :
    noHeaderBeforeProbe
      ((processAndStreamImage fsMixed "/images/a.jpg" (buildOptions {} none) emptyRes).1.trace)
      = false ∧
    (processAndStreamImage fsMixed "/images/a.jpg" (buildOptions {} none) emptyRes).1.trace =
      [Ev.resize, Ev.setHeader "Content-Type", Ev.setHeader "Cache-Control",
        Ev.probe, Ev.writeBody] := by
  decide

/-- C4 (amended): in every execution of `processAndStreamImage` the metadata
probe does come before any body byte is written (headers are set earlier,
but setting headers transmits nothing), so corruption errors still surface
before any bytes reach the client and no partial body is followed by an
error. -/
theorem C4_probe_before_body (fs : FS) (fullPath : String) (o : TransformOptions) :
    noWriteBeforeProbe ((processAndStreamImage fs fullPath o emptyRes).1.trace) = true := by
  by_cases hw : o.width = 0 <;>
  by_cases hfmt : (o.format = "webp" ∨ (o.format = "auto" ∧ o.acceptsWebP = true)) <;>
  by_cases hj : (lowerStr (extname fullPath) = ".jpg" ∨ lowerStr (extname fullPath) = ".jpeg") <;>
  by_cases hpng : lowerStr (extname fullPath) = ".png" <;>
  by_cases ht : fs.transcodeOk fullPath <;>
  by_cases hpk : fs.pipeOk fullPath <;>
  simp [processAndStreamImage, applyOriginalFormat, mimeTypesLookup, Res.setHeader,
    Res.addEv, emptyRes, noWriteBeforeProbe, hw, hfmt, hj, hpng, ht, hpk]

/-! ## C5: format selection and the missing MIME table -/

/-- C5: the WebP/jpeg/png format selections behave as claimed, but for any
other extension (here `.gif` with `format=original`) the claimed
extension→MIME table does not exist: `applyOriginalFormat` throws a
`ReferenceError` evaluating `mimeTypes[ext]`, no content-type is set, the
request falls through to the (equally broken) fallback and ends as 500. -/
theorem C5_mime_table_missing :
    applyOriginalFormat ".gif" emptyRes = (emptyRes, some referenceErrorMimeTypes) ∧
    (streamImageHandler fsMixed "/images" "c.gif" { format := some "original" } none).status
      = 500 ∧
    getHeader "Content-Type"
      (streamImageHandler fsMixed "/images" "c.gif" { format := some "original" } none).headers
      = none ∧
    getHeader "Content-Type"
      (streamImageHandler fsMixed "/images" "a.jpg" { format := some "webp" } none).headers
      = some "image/webp" ∧
    (streamImageHandler fsMixed "/images" "a.jpg" { format := some "webp" } none).status
      = 200 ∧
    getHeader "Content-Type"
      (streamImageHandler fsMixed "/images" "b.png" { format := some "original" } none).headers
      = some "image/png" ∧
    (streamImageHandler fsMixed "/images" "b.png" { format := some "original" } none).status
      = 200 := by
  decide

/-! ## C6: the TransformOptions invariants -/

/-- C6 (counterexample): the handler performs no validation of the query
values, so `q=500` yields quality 500 (outside 1–100), `w=-5` yields a
negative width, and `format=bogus` passes through — the claimed invariants
fail. -/
theorem C6_options_counterexample :
    (buildOptions { q := some "500" } none).quality = 500 ∧
    ¬ (buildOptions { q := some "500" } none).quality ≤ 100 ∧
    (buildOptions { w := some "-5" } none).width = -5 ∧
    (buildOptions { format := some "bogus" } none).format = "bogus" := by
  decide

/-- C6 (amended): the claimed invariants hold for requests whose parameters
are each absent or well-formed (`w` parsing to a positive integer, `q` to an
integer in 1–100, `format` one of the three enum words); the defaults 1280,
80 and `auto` are used for absent parameters, but out-of-range or malformed
values are passed through unvalidated. -/
theorem C6_options_amended (qr : Query) (acc : Option String)
    (hw : qr.w = none ∨ ∃ n : Int, 0 < n ∧ jsParseIntOpt qr.w = some n)
    (hq : qr.q = none ∨ ∃ n : Int, 1 ≤ n ∧ n ≤ 100 ∧ jsParseIntOpt qr.q = some n)
    (hf : qr.format = none ∨ qr.format = some "auto" ∨ qr.format = some "webp" ∨
      qr.format = some "original") :
    0 < (buildOptions qr acc).width ∧
    1 ≤ (buildOptions qr acc).quality ∧ (buildOptions qr acc).quality ≤ 100 ∧
    ((buildOptions qr acc).format = "auto" ∨ (buildOptions qr acc).format = "webp" ∨
      (buildOptions qr acc).format = "original") ∧
    (qr.w = none → (buildOptions qr acc).width = 1280) ∧
    (qr.q = none → (buildOptions qr acc).quality = 80) ∧
    (qr.format = none → (buildOptions qr acc).format = "auto") := by
  simp only [buildOptions, jsTruthyIntOr, jsTruthyStrOr]
  refine ⟨?_, ?_, ?_, ?_, ?_, ?_, ?_⟩
  · rcases hw with h | ⟨n, hn, h⟩
    · simp [h, jsParseIntOpt]
    · rw [h]
      by_cases h0 : n = 0 <;> simp [h0] <;> omega
  · rcases hq with h | ⟨n, h1, h2, h⟩
    · simp [h, jsParseIntOpt]
    · rw [h]
      by_cases h0 : n = 0 <;> simp [h0] <;> omega
  · rcases hq with h | ⟨n, h1, h2, h⟩
    · simp [h, jsParseIntOpt]
    · rw [h]
      by_cases h0 : n = 0 <;> simp [h0] <;> omega
  · rcases hf with h | h | h | h <;> simp [h]
  · intro h; simp [h, jsParseIntOpt]
  · intro h; simp [h, jsParseIntOpt]
  · intro h; simp [h]

/-- C6 witness: the amended theorem applied to the request
`?w=640&q=90&format=webp`. -/
theorem C6_options_witness :
    0 < (buildOptions { w := some "640", q := some "90", format := some "webp" } none).width ∧
    1 ≤ (buildOptions { w := some "640", q := some "90", format := some "webp" } none).quality ∧
    (buildOptions { w := some "640", q := some "90", format := some "webp" } none).quality ≤ 100 ∧
    ((buildOptions { w := some "640", q := some "90", format := some "webp" } none).format = "auto" ∨
      (buildOptions { w := some "640", q := some "90", format := some "webp" } none).format = "webp" ∨
      (buildOptions { w := some "640", q := some "90", format := some "webp" } none).format = "original") ∧
    ((Query.mk (some "640") (some "90") (some "webp")).w = none →
      (buildOptions { w := some "640", q := some "90", format := some "webp" } none).width = 1280) ∧
    ((Query.mk (some "640") (some "90") (some "webp")).q = none →
      (buildOptions { w := some "640", q := some "90", format := some "webp" } none).quality = 80) ∧
    ((Query.mk (some "640") (some "90") (some "webp")).format = none →
      (buildOptions { w := some "640", q := some "90", format := some "webp" } none).format = "auto") :=
  C6_options_amended { w := some "640", q := some "90", format := some "webp" } none
    (Or.inr ⟨640, by decide, by decide⟩)
    (Or.inr ⟨90, by decide, by decide, by decide⟩)
    (Or.inr (Or.inr (Or.inl rfl)))

/-! ## C10: the resize step can never be disabled -/

/-- C10: the parsed width is never 0 (`parseInt(w) || 1280` maps 0, `NaN`
and absence to 1280), so the `if (width)` guard in the pipeline is always
taken and every transcode attempt records the resize step. -/
theorem C10_resize_always_applied :
    (∀ (q : Query) (acc : Option String), (buildOptions q acc).width ≠ 0) ∧
    (buildOptions { w := some "0" } none).width = 1280 ∧
    (∀ s : String, jsParseIntChars s.data = none →
      (buildOptions { w := some s } none).width = 1280) ∧
    (∀ (fs : FS) (p : String) (q : Query) (acc : Option String),
      Ev.resize ∈ ((processAndStreamImage fs p (buildOptions q acc) emptyRes).1).trace) := by
  have hw : ∀ (q : Query) (acc : Option String), (buildOptions q acc).width ≠ 0 := by
    intro q acc
    simp only [buildOptions, jsTruthyIntOr]
    cases jsParseIntOpt q.w with
    | none => decide
    | some n =>
      by_cases h : n = 0
      · simp [h]
      · simp [h]
  refine ⟨hw, by decide, ?_, ?_⟩
  · intro s h
    simp [buildOptions, jsTruthyIntOr, jsParseIntOpt, h]
  · intro fs p q acc
    have h := hw q acc
    by_cases hfmt : ((buildOptions q acc).format = "webp" ∨
        ((buildOptions q acc).format = "auto" ∧ (buildOptions q acc).acceptsWebP = true)) <;>
    by_cases hj : (lowerStr (extname p) = ".jpg" ∨ lowerStr (extname p) = ".jpeg") <;>
    by_cases hpng : lowerStr (extname p) = ".png" <;>
    by_cases ht : fs.transcodeOk p <;>
    by_cases hpk : fs.pipeOk p <;>
    simp [processAndStreamImage, applyOriginalFormat, mimeTypesLookup, Res.setHeader,
      Res.addEv, emptyRes, h, hfmt, hj, hpng, ht, hpk]

/-- C10 witness: the width-defaulting conjunct applied at the non-numeric
parameter `w=abc`. -/
theorem C10_resize_witness :
    (buildOptions { w := some "abc" } none).width = 1280 :=
  C10_resize_always_applied.2.2.1 "abc" (by decide)

/-! ## C8: the error taxonomy of the streaming endpoint -/

/-- C8 (counterexample): the claim says a path that escapes root or contains
traversal yields 403.  The traversal path `../images2/a.jpg` (root `/images`)
passes the guard — its `..` is resolved away by `path.join` and the result
`/images2/a.jpg` textually extends the root string — and the request proceeds
to the existence check, answering 404 here, not 403. -/
theorem C8_escape_not_403 :
    containsDotDot "../images2/a.jpg".data = true ∧
    (streamImageHandler fsMixed "/images" "../images2/a.jpg" {} none).status = 404 := by
  decide

/-- C8 (amended): for every streaming request the status is exactly the flat
taxonomy of `specStatus`: a path rejected by the syntactic guard → 403; a
missing path → 404; an existing path that is unreadable → 500; an existing
non-file → 400; a regular readable file → 200 when the content-type step
succeeds (WebP negotiation or extension in {jpg, jpeg, png}) and the probe
passes (even if the stream later breaks mid-flight, the committed 200
stands), and 500 otherwise — the transcode failure itself is never surfaced
as a distinct status: the fallback is attempted, always fails (missing MIME
table), and yields the generic 500 only when nothing has been sent. -/
theorem C8_status_taxonomy (fs : FS) (root ip : String) (q : Query) (acc : Option String) :
    (streamImageHandler fs root ip q acc).status = specStatus fs root ip (buildOptions q acc) := by
  by_cases hsafe : isPathSafe root (joinPaths root ip) = true
  case neg =>
    simp [streamImageHandler, specStatus, validateRequest, handleError, emptyRes, hsafe]
  case pos =>
    cases hk : fs.kind (joinPaths root ip) with
    | missing =>
      simp [streamImageHandler, specStatus, validateRequest, handleError, emptyRes, hsafe, hk]
    | directory =>
      by_cases hr : fs.readable (joinPaths root ip) = true <;>
        simp [streamImageHandler, specStatus, validateRequest, handleError, emptyRes,
          hsafe, hk, hr]
    | file =>
      by_cases hr : fs.readable (joinPaths root ip) = true
      case neg =>
        simp [streamImageHandler, specStatus, validateRequest, handleError, emptyRes,
          hsafe, hk, hr]
      case pos =>
        by_cases hw : (buildOptions q acc).width = 0 <;>
        by_cases hfmt : ((buildOptions q acc).format = "webp" ∨
            ((buildOptions q acc).format = "auto" ∧ (buildOptions q acc).acceptsWebP = true)) <;>
        by_cases hj : (lowerStr (extname (joinPaths root ip)) = ".jpg" ∨
            lowerStr (extname (joinPaths root ip)) = ".jpeg") <;>
        by_cases hpng : lowerStr (extname (joinPaths root ip)) = ".png" <;>
        by_cases ht : fs.transcodeOk (joinPaths root ip) = true <;>
        by_cases hpk : fs.pipeOk (joinPaths root ip) = true <;>
        simp [streamImageHandler, specStatus, validateRequest, handleError, emptyRes,
          processAndStreamImage, applyOriginalFormat, streamOriginalFile, mimeTypesLookup,
          Res.setHeader, Res.addEv, hsafe, hk, hr, hw, hfmt, hj, hpng, ht, hpk]

/-- C8 witness: the taxonomy evaluated on a concrete forbidden path. -/
theorem C8_status_witness :
    (streamImageHandler fsMixed "/images" "../zz/secret.jpg" {} none).status =
      specStatus fsMixed "/images" "../zz/secret.jpg" (buildOptions {} none) :=
  C8_status_taxonomy fsMixed "/images" "../zz/secret.jpg" {} none

/-! ## C9: the metadata fallback chain -/

/-- C9: for every successfully parsed image file with a supported extension,
`getImageMetadata` populates `dateTime` by the fallback chain
DateTimeOriginal → DateTime → file-modified-time (a tag counts as present
when its description is a non-empty string, JavaScript `||` semantics);
make/model/dimensions are taken from tags when (truthily) present and absent
otherwise, `gps` is copied verbatim when the group is present, and
orientation defaults to 1 when the tag is absent. -/
theorem C9_metadata_fallback_chain (o : MetaFsOracle) (fp : String) (st : Stats)
    (tags : ExifTags)
    (hext : metaExts.contains (lowerStr (extname fp)) = true)
    (h1 : o.stat1 = .ok st) (hf : st.isFile = true)
    (h2 : o.readFile = .ok ()) (h3 : o.load = .ok tags) :
    ∃ md : Metadata, getImageMetadata o fp = .ok (some md) ∧
      md.fileName = basenameStr fp ∧
      md.fileSize = st.size ∧
      (∀ s, tags.dateTimeOriginal = some s → s ≠ "" → md.dateTime = s) ∧
      ((tags.dateTimeOriginal = none ∨ tags.dateTimeOriginal = some "") →
        ∀ s, tags.dateTime = some s → s ≠ "" → md.dateTime = s) ∧
      ((tags.dateTimeOriginal = none ∨ tags.dateTimeOriginal = some "") →
        (tags.dateTime = none ∨ tags.dateTime = some "") →
        md.dateTime = st.mtimeIso) ∧
      (tags.orientation = none → md.orientation = 1) ∧
      (∀ s, tags.make = some s → s ≠ "" → md.make = some s) ∧
      (tags.make = none → md.make = none) ∧
      (∀ s, tags.model = some s → s ≠ "" → md.model = some s) ∧
      (tags.model = none → md.model = none) ∧
      (∀ v, tags.imageWidth = some v → v ≠ 0 → md.width = some v) ∧
      (tags.imageWidth = none → md.width = none) ∧
      (∀ v, tags.imageHeight = some v → v ≠ 0 → md.height = some v) ∧
      (tags.imageHeight = none → md.height = none) ∧
      md.gps = tags.gps ∧
      md.error = none := by
  have hext' : lowerStr (extname fp) ∈ metaExts := by simpa using hext
  have hres : getImageMetadata o fp = .ok (some (buildMetadata fp st tags)) := by
    simp [getImageMetadata, getImageMetadataTry, hext', h1, hf, h2, h3]
  refine ⟨buildMetadata fp st tags, hres, rfl, rfl, ?_, ?_, ?_, ?_, ?_, ?_, ?_, ?_, ?_, ?_,
    ?_, ?_, rfl, rfl⟩
  · intro s hs hne
    simp [buildMetadata, jsTruthyOrOpt, jsTruthyStrOr, hs, hne]
  · rintro (h | h) s hs hne <;>
      simp [buildMetadata, jsTruthyOrOpt, jsTruthyStrOr, h, hs, hne]
  · rintro (h | h) (h' | h') <;>
      simp [buildMetadata, jsTruthyOrOpt, jsTruthyStrOr, h, h']
  · intro h
    simp [buildMetadata, jsTruthyIntOr, h]
  · intro s hs hne
    simp [buildMetadata, jsTruthyOrOpt, hs, hne]
  · intro h
    simp [buildMetadata, jsTruthyOrOpt, h]
  · intro s hs hne
    simp [buildMetadata, jsTruthyOrOpt, hs, hne]
  · intro h
    simp [buildMetadata, jsTruthyOrOpt, h]
  · intro v hv hne
    simp [buildMetadata, hv, hne]
  · intro h
    simp [buildMetadata, h]
  · intro v hv hne
    simp [buildMetadata, hv, hne]
  · intro h
    simp [buildMetadata, h]

/-! ## C7: the recursive scan -/

/-- C7 (counterexample): a tree whose subdirectory `sub` holds a healthy
`a.jpg` and a `v.jpg` that vanishes mid-scan, next to a top-level healthy
`b.png`: all three files carry scan extensions, yet the scan emits only the
record for `b.png` — the vanishing file's metadata rejection wipes out the
whole subdirectory (see C3), so "exactly one record per matching regular
file" fails. -/
theorem C7_scan_counterexample :
    scanExts.contains (lowerStr (extname "a.jpg")) = true ∧
    scanExts.contains (lowerStr (extname "v.jpg")) = true ∧
    scanExts.contains (lowerStr (extname "b.png")) = true ∧
    (getImagesRecursively "/images" "/images" subCollapseEntries).map
      (fun r => r.path) = ["b.png"] := by
  refine ⟨by decide, by decide, by decide, ?_⟩
  simp only [getImagesRecursively, scanList, scanEntry, subCollapseEntries]
  decide

/-- C7 (amended): provided every file's metadata extraction completes
without raising (no file vanishes mid-scan; extraction may still degrade to
partial data) and the names are plain path segments, the recursive scan
emits exactly one record per regular file whose lower-cased extension is in
{jpg, jpeg, png, gif}, recursing into every subdirectory, each record
carrying the root-relative forward-slash path and the file's (possibly
degraded) metadata — the `expectedList` records; when an extraction does
raise, the whole containing directory's records are dropped instead. -/
theorem C7_scan_amended (rootS : List String) (entries : List FsEntry)
    (hr : rootS ≠ []) (hrs : ∀ s ∈ rootS, normSeg s.data = true)
    (hok : entriesOk entries = true) :
    getImagesRecursively (absString rootS) (absString rootS) entries =
      expectedList [] entries := by
  have h := scanList_expected rootS [] entries hr hrs (by simp) hok
  rw [List.append_nil] at h
  simp only [getImagesRecursively, h]

/-- C7 witness: the spec's example — a directory with `a.jpg`, `b.png`,
`ignore.txt` and an empty subdirectory `c/` yields exactly the two records
for a.jpg and b.png with root-relative forward-slash paths. -/
theorem C7_scan_witness :
    getImagesRecursively "/images" "/images" exampleEntries =
      expectedList [] exampleEntries ∧
    (expectedList [] exampleEntries).map (fun r => r.path) = ["a.jpg", "b.png"] ∧
    (expectedList [] exampleEntries).length = 2 := by
  refine ⟨?_, ?_, ?_⟩
  · have hok : entriesOk exampleEntries = true := by
      simp only [entriesOk, entryOk, exampleEntries]
      decide
    have h := C7_scan_amended ["images"] exampleEntries (by simp) (by decide) hok
    have habs : absString ["images"] = "/images" := by decide
    rwa [habs] at h
  · simp only [expectedList, expectedEntry, exampleEntries]
    decide
  · simp only [expectedList, expectedEntry, exampleEntries]
    decide

/-- C9 witness: the fallback-chain theorem applied to a concrete tagged
file. -/
theorem C9_metadata_witness :
    ∃ md : Metadata, getImageMetadata mdTagged "/images/a.jpg" = .ok (some md) ∧
      md.dateTime = "2019:01:01 10:00:00" ∧ md.orientation = 1 ∧
      md.make = some "Canon" := by
  obtain ⟨md, hres, _, _, hdto, _, _, hor, hmake, _⟩ :=
    C9_metadata_fallback_chain mdTagged "/images/a.jpg"
      { isFile := true, size := 42, mtimeIso := "2023-03-03T00:00:00.000Z" }
      tagsTagged (by decide) rfl rfl rfl rfl
  exact ⟨md, hres, hdto _ rfl (by decide), hor rfl, hmake _ rfl (by decide)⟩

end PhotoGetter
